import Mathlib

/-!
Verification of the CV-As-Code preview server core.

The definitions below are shallow embeddings of the JavaScript source:
the staleness checker (`needsPdfRegeneration`), the PDF generation
pipeline (`generatePdfAsync` / `handlePdfGeneration`), the debounced
file watcher, the SSE subscriber registry with idle auto-shutdown, the
resume-switch handler, the launcher restart loop and the static file
server.  Filesystem access is modelled as explicit inputs (mtime maps,
existence flags), process spawning as an abstract outcome, and timers
as explicit deadlines processed over timestamped event traces.
-/

namespace CVAC

/-! ### Staleness checker (handlers/pdf.js, needsPdfRegeneration)

The function touches a fixed slice of the filesystem under the resume
directory: `resume.pdf`, `resume.html` and the entries of the single
level `css/` subdirectory.  We model exactly that slice; `none` means
the file (or directory) is absent, mtimes are naturals. -/

/-- Model of JavaScript's `String.prototype.endsWith`: the last
characters of `s` spell `pat`. -/
def strEndsWith (s pat : String) : Bool :=
  s.data.reverse.take pat.data.length == pat.data.reverse

structure ResumeDirFS where
  pdfMtime : Option Nat
  htmlMtime : Option Nat
  cssDir : Option (List (String × Nat))
deriving Repr

/-- Embedding of `needsPdfRegeneration(resumeDir)`.  `fs.statSync` on a
missing file throws, which we model with `Except.error`. -/
def needsPdfRegeneration (fsys : ResumeDirFS) : Except String Bool :=
  match fsys.pdfMtime with
  | none => .ok true
  | some pdfM =>
    match fsys.htmlMtime with
    | none => .error "ENOENT: no such file resume.html"
    | some htmlM =>
      let cssNewer : Bool :=
        match fsys.cssDir with
        | none => false
        | some entries =>
          (entries.filter (fun f => strEndsWith f.1 ".css")).any (fun f => pdfM < f.2)
      if cssNewer then .ok true else .ok (decide (pdfM < htmlM))

/-- The css entries the checker looks at (empty when `css/` is absent). -/
def cssEntries (fsys : ResumeDirFS) : List (String × Nat) :=
  fsys.cssDir.getD []

/-- C1: the staleness check returns true when `resume.pdf` is absent, and
otherwise (given `resume.html` exists) returns true iff `resume.html` or
some `.css` entry of the `css/` subdirectory has a strictly newer mtime
than the pdf; equal timestamps count as fresh (result `false`).  The
embedding is a pure function of the filesystem slice, so it performs no
writes. -/
theorem needsPdfRegeneration_correct (fsys : ResumeDirFS) :
    (fsys.pdfMtime = none → needsPdfRegeneration fsys = .ok true) ∧
    (∀ p h, fsys.pdfMtime = some p → fsys.htmlMtime = some h →
      ((needsPdfRegeneration fsys = .ok true ↔
         (p < h ∨ ∃ e ∈ cssEntries fsys, strEndsWith e.1 ".css" = true ∧ p < e.2)) ∧
       (¬ (p < h ∨ ∃ e ∈ cssEntries fsys, strEndsWith e.1 ".css" = true ∧ p < e.2) →
         needsPdfRegeneration fsys = .ok false))) := by
  constructor
  · intro hp
    simp [needsPdfRegeneration, hp]
  · intro p h hp hh
    cases hcss : fsys.cssDir with
    | none =>
      constructor
      · simp [needsPdfRegeneration, hp, hh, hcss, cssEntries]
      · intro hnot
        simp only [not_or] at hnot
        simp [needsPdfRegeneration, hp, hh, hcss, Nat.not_lt.mp hnot.1]
    | some entries =>
      have hmem : ((entries.filter (fun f => strEndsWith f.1 ".css")).any
          (fun f => decide (p < f.2)) = true) ↔
          ∃ e ∈ cssEntries fsys, strEndsWith e.1 ".css" = true ∧ p < e.2 := by
        simp [List.any_eq_true, List.mem_filter, cssEntries, hcss]
      by_cases hb : ((entries.filter (fun f => strEndsWith f.1 ".css")).any
          (fun f => decide (p < f.2)) = true)
      · constructor
        · simp only [needsPdfRegeneration, hp, hh, hcss, hb]
          simp [hmem.mp hb]
        · intro hnot
          exact absurd (Or.inr (hmem.mp hb)) hnot
      · have hbf : ((entries.filter (fun f => strEndsWith f.1 ".css")).any
            (fun f => decide (p < f.2))) = false := by
          simpa using hb
        constructor
        · simp only [needsPdfRegeneration, hp, hh, hcss, hbf]
          simp only [Bool.false_eq_true, if_false, Except.ok.injEq, decide_eq_true_eq]
          constructor
          · exact fun hlt => Or.inl hlt
          · intro hor
            rcases hor with hlt | hex
            · exact hlt
            · exact absurd (hmem.mpr hex) hb
        · intro hnot
          simp only [not_or] at hnot
          simp only [needsPdfRegeneration, hp, hh, hcss, hbf]
          simp [Nat.not_lt.mp hnot.1]

/-- Witness for C1: a pdf older than a css entry is stale; a missing pdf
is stale. -/
theorem needsPdfRegeneration_correct_witness :
    needsPdfRegeneration ⟨some 10, some 10, some [("a.css", 11)]⟩ = .ok true ∧
    needsPdfRegeneration ⟨none, none, none⟩ = .ok true :=
  ⟨(((needsPdfRegeneration_correct ⟨some 10, some 10, some [("a.css", 11)]⟩).2
       10 10 rfl rfl).1).mpr
      (Or.inr ⟨("a.css", 11), by simp [cssEntries], by decide, by decide⟩),
   (needsPdfRegeneration_correct ⟨none, none, none⟩).1 rfl⟩

/-- C9: when `resume.pdf` exists but `resume.html` is absent, the
unguarded `fs.statSync(htmlPath)` throws, so the check raises an error
instead of returning a boolean. -/
theorem needsPdfRegeneration_html_missing (fsys : ResumeDirFS) (p : Nat)
    (hp : fsys.pdfMtime = some p) (hh : fsys.htmlMtime = none) :
    ∃ msg, needsPdfRegeneration fsys = .error msg :=
  ⟨"ENOENT: no such file resume.html", by simp [needsPdfRegeneration, hp, hh]⟩

/-- Witness for C9 at a concrete filesystem state. -/
theorem needsPdfRegeneration_html_missing_witness :
    ∃ msg, needsPdfRegeneration ⟨some 3, none, none⟩ = .error msg :=
  needsPdfRegeneration_html_missing ⟨some 3, none, none⟩ 3 rfl rfl

/-! ### External render invoker (handlers/pdf.js, generatePdfAsync and
handlePdfGeneration) -/

/-- Outcome of the spawned `node cli/pdf.js` process: either the spawn
itself errors, or the process exits with a code. -/
inductive SpawnOutcome where
  | spawnErr (msg : String)
  | exited (code : Int)
deriving Repr, DecidableEq

/-- Embedding of `generatePdfAsync`: the promise resolves `true` on exit
code 0, rejects with the spawn error or the exit code otherwise. -/
def generatePdfAsync (outcome : SpawnOutcome) : Except String Bool :=
  match outcome with
  | .spawnErr msg => .error ("Failed to start PDF generation: " ++ msg)
  | .exited code =>
    if code = 0 then .ok true
    else .error ("PDF generation exited with code " ++ toString code)

/-- HTTP response of the `/api/pdf` route. -/
inductive PdfResponse where
  | servedCached
  | servedFresh
  | errNoOutput
  | errGeneration (msg : String)
deriving Repr, DecidableEq

/-- Embedding of `handlePdfGeneration`: serves the cached pdf when the
staleness check says fresh and the pdf exists, otherwise awaits
`generatePdfAsync` and then checks that `resume.pdf` exists.  An
exception from the staleness check propagates.  `pdfAfter` says whether
`resume.pdf` exists once the spawned process has finished. -/
def handlePdfGeneration (fsBefore : ResumeDirFS) (outcome : SpawnOutcome)
    (pdfAfter : Bool) : Except String PdfResponse :=
  match needsPdfRegeneration fsBefore with
  | .error e => .error e
  | .ok needs =>
    if !needs && fsBefore.pdfMtime.isSome then .ok .servedCached
    else
      match generatePdfAsync outcome with
      | .ok _ => if pdfAfter then .ok .servedFresh else .ok .errNoOutput
      | .error msg => .ok (.errGeneration ("PDF generation failed: " ++ msg))

/-- C2: when regeneration is required, the render invocation succeeds
(serves a fresh pdf) iff the spawned process exited 0 AND `resume.pdf`
exists afterwards; a zero exit without the output file is a failure
response, and any non-zero exit or spawn error surfaces as a 500
response carrying the process's error information. -/
theorem handlePdfGeneration_success_iff (fsBefore : ResumeDirFS)
    (outcome : SpawnOutcome) (pdfAfter : Bool)
    (hstale : needsPdfRegeneration fsBefore = .ok true) :
    (handlePdfGeneration fsBefore outcome pdfAfter = .ok .servedFresh ↔
      (outcome = .exited 0 ∧ pdfAfter = true)) ∧
    (outcome = .exited 0 → pdfAfter = false →
      handlePdfGeneration fsBefore outcome pdfAfter = .ok .errNoOutput) ∧
    (∀ code, outcome = .exited code → code ≠ 0 →
      handlePdfGeneration fsBefore outcome pdfAfter =
        .ok (.errGeneration
          ("PDF generation failed: " ++
            ("PDF generation exited with code " ++ toString code)))) ∧
    (∀ msg, outcome = .spawnErr msg →
      handlePdfGeneration fsBefore outcome pdfAfter =
        .ok (.errGeneration
          ("PDF generation failed: " ++
            ("Failed to start PDF generation: " ++ msg)))) := by
  cases outcome with
  | spawnErr msg =>
    cases pdfAfter <;>
      simp [handlePdfGeneration, hstale, generatePdfAsync]
  | exited code =>
    by_cases hc : code = 0
    · subst hc
      cases pdfAfter <;>
        simp [handlePdfGeneration, hstale, generatePdfAsync]
    · cases pdfAfter <;>
        simp [handlePdfGeneration, hstale, generatePdfAsync, hc]

/-- Witness for C2: with a missing pdf (stale), a zero exit and the
output present, the fresh pdf is served; with the output missing, the
no-output failure is returned. -/
theorem handlePdfGeneration_success_iff_witness :
    handlePdfGeneration ⟨none, none, none⟩ (.exited 0) true = .ok .servedFresh ∧
    handlePdfGeneration ⟨none, none, none⟩ (.exited 0) false = .ok .errNoOutput :=
  ⟨((handlePdfGeneration_success_iff ⟨none, none, none⟩ (.exited 0) true rfl).1).mpr
      ⟨rfl, rfl⟩,
   (handlePdfGeneration_success_iff ⟨none, none, none⟩ (.exited 0) false rfl).2.1
      rfl rfl⟩

/-! ### Debounced file watcher (live-reload.js, initWatcher)

The `change` handler clears the single module-level `debounceTimer` and
schedules a new `DEBOUNCE_MS` timeout whose callback broadcasts one
`reload` event with the relative path it captured.  We model the event
loop explicitly: timers are deadlines, and a due timer runs before any
later notification is handled. -/

def DEBOUNCE_MS : Nat := 100

/-- State of the change handler: the single pending `debounceTimer`
(deadline, captured relative path) and the `file` payloads of the
`reload` events broadcast so far, in order. -/
structure DebounceState where
  pending : Option (Nat × String)
  emitted : List String
deriving Repr, DecidableEq

/-- Run the pending timer callback if its deadline has been reached by
time `t`: it broadcasts the `reload` event for the captured file. -/
def flushDebounce (t : Nat) (s : DebounceState) : DebounceState :=
  match s.pending with
  | some (dl, f) =>
    if dl ≤ t then { pending := none, emitted := s.emitted ++ [f] } else s
  | none => s

/-- The `watcher.on('change')` handler at time `t` for file `f`: any due
timer has already run; `clearTimeout(debounceTimer)` discards the
pending callback and `setTimeout` schedules a new one capturing `f`. -/
def onChange (t : Nat) (f : String) (s : DebounceState) : DebounceState :=
  let s := flushDebounce t s
  { pending := some (t + DEBOUNCE_MS, f), emitted := s.emitted }

/-- Process a chronological list of raw change notifications. -/
def runChanges (notifs : List (Nat × String)) (s : DebounceState) : DebounceState :=
  notifs.foldl (fun s n => onChange n.1 n.2 s) s

/-- All `reload` events broadcast once the system quiesces (the last
pending timer, if any, fires with no further notification). -/
def emittedAfterQuiesce (s : DebounceState) : List String :=
  match s.pending with
  | some (_, f) => s.emitted ++ [f]
  | none => s.emitted

/-- The notifications form a single burst after time `t`: each arrives
no earlier than the previous one and strictly before the deadline the
previous one scheduled. -/
def burstFrom (t : Nat) : List (Nat × String) → Prop
  | [] => True
  | n :: rest => t ≤ n.1 ∧ n.1 < t + DEBOUNCE_MS ∧ burstFrom n.1 rest

/-- The last notification of the burst (`dflt` when it is empty). -/
def lastNotif (dflt : Nat × String) (l : List (Nat × String)) : Nat × String :=
  l.getLast?.getD dflt

theorem lastNotif_cons (dflt n : Nat × String) (l : List (Nat × String)) :
    lastNotif dflt (n :: l) = lastNotif n l := by
  cases l with
  | nil => rfl
  | cons m l' => simp [lastNotif, List.getLast?]

theorem runChanges_burst (rest : List (Nat × String)) :
    ∀ t f es, burstFrom t rest →
      runChanges rest ⟨some (t + DEBOUNCE_MS, f), es⟩ =
        ⟨some ((lastNotif (t, f) rest).1 + DEBOUNCE_MS,
               (lastNotif (t, f) rest).2), es⟩ := by
  induction rest with
  | nil => intro t f es _; rfl
  | cons n rest' ih =>
    intro t f es hburst
    obtain ⟨hle, hlt, hburst'⟩ := hburst
    have hstep : onChange n.1 n.2 ⟨some (t + DEBOUNCE_MS, f), es⟩ =
        ⟨some (n.1 + DEBOUNCE_MS, n.2), es⟩ := by
      simp [onChange, flushDebounce, Nat.not_le.mpr hlt]
    calc runChanges (n :: rest') ⟨some (t + DEBOUNCE_MS, f), es⟩
        = runChanges rest' (onChange n.1 n.2 ⟨some (t + DEBOUNCE_MS, f), es⟩) := rfl
      _ = runChanges rest' ⟨some (n.1 + DEBOUNCE_MS, n.2), es⟩ := by rw [hstep]
      _ = ⟨some ((lastNotif (n.1, n.2) rest').1 + DEBOUNCE_MS,
               (lastNotif (n.1, n.2) rest').2), es⟩ := ih n.1 n.2 es hburst'
      _ = ⟨some ((lastNotif (t, f) (n :: rest')).1 + DEBOUNCE_MS,
               (lastNotif (t, f) (n :: rest')).2), es⟩ := by
            rw [lastNotif_cons]

/-- C3: a burst of `N ≥ 1` raw change notifications, each arriving
within the 100 ms debounce window of the previous one, produces exactly
one broadcast `reload` event, and its payload is the relative path of
the last-changed file.  The single pending timer is cancelled and
rescheduled on every raw notification: after the burst exactly one
timer is pending, scheduled by the last notification. -/
theorem debounce_single_reload (t₀ : Nat) (f₀ : String)
    (rest : List (Nat × String)) (hburst : burstFrom t₀ rest) :
    emittedAfterQuiesce (runChanges ((t₀, f₀) :: rest) ⟨none, []⟩) =
      [(lastNotif (t₀, f₀) rest).2] ∧
    (runChanges ((t₀, f₀) :: rest) ⟨none, []⟩).pending =
      some ((lastNotif (t₀, f₀) rest).1 + DEBOUNCE_MS,
            (lastNotif (t₀, f₀) rest).2) := by
  have h0 : runChanges ((t₀, f₀) :: rest) ⟨none, []⟩ =
      runChanges rest ⟨some (t₀ + DEBOUNCE_MS, f₀), []⟩ := rfl
  rw [h0, runChanges_burst rest t₀ f₀ [] hburst]
  exact ⟨rfl, rfl⟩

/-- Witness for C3: three rapid saves 0 ms, 50 ms and 120 ms produce the
single reload event for the last file. -/
theorem debounce_single_reload_witness :
    emittedAfterQuiesce
      (runChanges [(0, "resume.html"), (50, "a.css"), (120, "b.css")] ⟨none, []⟩) =
      ["b.css"] :=
  (debounce_single_reload 0 "resume.html" [(50, "a.css"), (120, "b.css")]
    (by norm_num [burstFrom, DEBOUNCE_MS])).1

/-! ### Idle-shutdown supervisor (live-reload.js, handleSSEConnection,
startAutoShutdownTimer, cancelAutoShutdownTimer)

The SSE module keeps a client set, a single `autoShutdownTimer` and the
externally supplied shutdown callback.  We model the client set by its
size, the timer by its deadline, and record the times at which the
shutdown callback ran.  Connection events are processed in time order;
a due timer callback runs before any later event is handled. -/

def AUTO_SHUTDOWN_DELAY_MS : Nat := 5000

inductive ConnEvent where
  | connect
  | disconnect
deriving Repr, DecidableEq

structure SSEState where
  clients : Nat
  timer : Option Nat
  fires : List Nat
deriving Repr, DecidableEq

/-- Run the auto-shutdown timer callback if its deadline is due by time
`t`.  The callback body re-checks `clients.size === 0` and invokes the
shutdown callback only when the registry is still empty. -/
def flushShutdown (t : Nat) (s : SSEState) : SSEState :=
  match s.timer with
  | some dl =>
    if dl ≤ t then
      if s.clients = 0 then
        { clients := s.clients, timer := none, fires := s.fires ++ [dl] }
      else { s with timer := none }
    else s
  | none => s

/-- One connection event at time `t`: a connect adds the client and
`cancelAutoShutdownTimer` clears any pending timer; a disconnect removes
the client and, when the registry empties, `startAutoShutdownTimer`
first clears any existing timer and then schedules a new one. -/
def sseStep (s : SSEState) (e : Nat × ConnEvent) : SSEState :=
  let s := flushShutdown e.1 s
  match e.2 with
  | .connect => { clients := s.clients + 1, timer := none, fires := s.fires }
  | .disconnect =>
    let c := s.clients - 1
    if c = 0 then
      { clients := c, timer := some (e.1 + AUTO_SHUTDOWN_DELAY_MS), fires := s.fires }
    else { clients := c, timer := s.timer, fires := s.fires }

/-- Process a chronological trace of connection events, then let time
pass until `horizon` so that a due timer fires. -/
def runSSE (events : List (Nat × ConnEvent)) (horizon : Nat) (s : SSEState) : SSEState :=
  flushShutdown horizon (events.foldl sseStep s)

/-- Invariant carried through the trace: every recorded callback firing
and the pending deadline, if any, satisfy `P`. -/
def SSEInv (P : Nat → Prop) (s : SSEState) : Prop :=
  (∀ T ∈ s.fires, P T) ∧ (∀ dl, s.timer = some dl → P dl)

theorem flushShutdown_inv (P : Nat → Prop) (t : Nat) (s : SSEState)
    (h : SSEInv P s) : SSEInv P (flushShutdown t s) := by
  obtain ⟨hfires, htimer⟩ := h
  unfold flushShutdown
  cases hs : s.timer with
  | none => exact ⟨hfires, htimer⟩
  | some dl =>
    by_cases h1 : dl ≤ t
    · by_cases h2 : s.clients = 0
      · simp only [h1, if_true, h2, if_true]
        refine ⟨?_, by simp⟩
        intro T hT
        rcases List.mem_append.mp hT with hm | hm
        · exact hfires T hm
        · rw [List.mem_singleton.mp hm]; exact htimer dl hs
      · simp only [h1, if_true, h2, if_false]
        exact ⟨hfires, by simp⟩
    · simp only [h1, if_false]
      exact ⟨hfires, htimer⟩

theorem sseStep_inv (P : Nat → Prop) (s : SSEState) (e : Nat × ConnEvent)
    (h : SSEInv P s) (harm : e.2 = ConnEvent.disconnect → P (e.1 + AUTO_SHUTDOWN_DELAY_MS)) :
    SSEInv P (sseStep s e) := by
  have h' := flushShutdown_inv P e.1 s h
  obtain ⟨hfires, htimer⟩ := h'
  unfold sseStep
  cases he : e.2 with
  | connect => exact ⟨hfires, by simp⟩
  | disconnect =>
    by_cases hc : (flushShutdown e.1 s).clients - 1 = 0
    · simp only [hc, if_true]
      refine ⟨hfires, ?_⟩
      intro dl hdl
      simp only [Option.some.injEq] at hdl
      rw [← hdl]
      exact harm he
    · simp only [hc, if_false]
      exact ⟨hfires, htimer⟩

theorem foldl_sseStep_inv (P : Nat → Prop) :
    ∀ (events : List (Nat × ConnEvent)) (s : SSEState), SSEInv P s →
      (∀ e ∈ events, e.2 = ConnEvent.disconnect → P (e.1 + AUTO_SHUTDOWN_DELAY_MS)) →
      SSEInv P (events.foldl sseStep s) := by
  intro events
  induction events with
  | nil => intro s h _; exact h
  | cons e rest ih =>
    intro s h harm
    exact ih (sseStep s e) (sseStep_inv P s e h (harm e (List.mem_cons_self e rest)))
      (fun e' he' => harm e' (List.mem_cons_of_mem e he'))

/-- C4: over any chronological trace started with no pending timer,
(i) every shutdown-callback firing happens exactly
`AUTO_SHUTDOWN_DELAY_MS` after some disconnect event of the trace, so
never earlier than the grace period after the disconnect that armed it;
(ii) if the sole subscriber disconnects at `d` and a new one connects at
`c` before the deadline `d + AUTO_SHUTDOWN_DELAY_MS`, the callback never
fires for that idle episode, whatever the horizon;
(iii) arming while a timer is already pending replaces it with the new
deadline (at most one pending timer) and fires nothing;
(iv) the timer callback invokes the shutdown callback only if the client
count is still zero when it runs. -/
theorem idle_shutdown_correct :
    (∀ (events : List (Nat × ConnEvent)) (horizon n T : Nat),
       T ∈ (runSSE events horizon ⟨n, none, []⟩).fires →
       ∃ d, T = d + AUTO_SHUTDOWN_DELAY_MS ∧ (d, ConnEvent.disconnect) ∈ events) ∧
    (∀ (s : SSEState) (d c horizon : Nat), s.clients = 1 → s.timer = none →
       c < d + AUTO_SHUTDOWN_DELAY_MS →
       runSSE [(d, ConnEvent.disconnect), (c, ConnEvent.connect)] horizon s =
         { clients := 1, timer := none, fires := s.fires }) ∧
    (∀ (s : SSEState) (t dl : Nat), s.clients = 0 → s.timer = some dl → t < dl →
       (sseStep s (t, ConnEvent.disconnect)).timer =
           some (t + AUTO_SHUTDOWN_DELAY_MS) ∧
       (sseStep s (t, ConnEvent.disconnect)).fires = s.fires) ∧
    (∀ (t : Nat) (s : SSEState), s.clients ≠ 0 → (flushShutdown t s).fires = s.fires) := by
  refine ⟨?_, ?_, ?_, ?_⟩
  · intro events horizon n T hT
    have hinv : SSEInv (fun dl => ∃ d, dl = d + AUTO_SHUTDOWN_DELAY_MS ∧
        (d, ConnEvent.disconnect) ∈ events) (runSSE events horizon ⟨n, none, []⟩) := by
      apply flushShutdown_inv
      apply foldl_sseStep_inv
      · exact ⟨by simp, by simp⟩
      · intro e he hdis
        exact ⟨e.1, rfl, by rw [← hdis]; exact he⟩
    exact hinv.1 T hT
  · intro s d c horizon h1 ht hwin
    have hstep1 : sseStep s (d, ConnEvent.disconnect) =
        { clients := 0, timer := some (d + AUTO_SHUTDOWN_DELAY_MS), fires := s.fires } := by
      simp [sseStep, flushShutdown, ht, h1]
    have hstep2 : sseStep (⟨0, some (d + AUTO_SHUTDOWN_DELAY_MS), s.fires⟩ : SSEState)
        (c, ConnEvent.connect) =
        { clients := 1, timer := none, fires := s.fires } := by
      simp [sseStep, flushShutdown, Nat.not_le.mpr hwin]
    show flushShutdown horizon (sseStep (sseStep s (d, ConnEvent.disconnect))
        (c, ConnEvent.connect)) = _
    rw [hstep1, hstep2]
    simp [flushShutdown]
  · intro s t dl h0 ht hlt
    constructor <;> simp [sseStep, flushShutdown, ht, Nat.not_le.mpr hlt, h0]
  · intro t s hne
    unfold flushShutdown
    cases hs : s.timer with
    | none => rfl
    | some dl =>
      by_cases h1 : dl ≤ t
      · simp [h1, hne]
      · simp [h1]

/-- Witness for C4: one subscriber disconnects at time 0 and a new one
connects at 4999 ms; the shutdown callback never fires for that
episode even at a late horizon, and a firing in a quiet trace happens
exactly 5000 ms after the disconnect. -/
theorem idle_shutdown_correct_witness :
    runSSE [(0, ConnEvent.disconnect), (4999, ConnEvent.connect)] 100000
        ⟨1, none, []⟩ = { clients := 1, timer := none, fires := [] } ∧
    (∀ T, T ∈ (runSSE [(0, ConnEvent.disconnect)] 100000 ⟨1, none, []⟩).fires →
      ∃ d, T = d + AUTO_SHUTDOWN_DELAY_MS ∧
        (d, ConnEvent.disconnect) ∈ [(0, ConnEvent.disconnect)]) :=
  ⟨idle_shutdown_correct.2.1 ⟨1, none, []⟩ 0 4999 100000 rfl rfl (by norm_num [AUTO_SHUTDOWN_DELAY_MS]),
   fun T hT => idle_shutdown_correct.1 [(0, ConnEvent.disconnect)] 100000 1 T hT⟩

/-! ### Resume switch (handlers/api.js, handleSwitchResume)

The handler validates the requested name against
`getAllResumesWithExternals()`, then runs `setCurrentResume`,
`state.saveConfig({ lastResume })`, `switchWatcher()` and
`notifyClients('switch', ...)` in that order, answering 200 with the
new current name; an unknown name answers 404.  We model the mutable
server state explicitly and record every externally visible effect. -/

structure ServerConfig where
  visibleResumes : Option (List String)
  lastResume : Option String
  externalPaths : List String
deriving Repr, DecidableEq

structure ServerState where
  currentResume : Option String
  config : ServerConfig
deriving Repr, DecidableEq

/-- Externally visible side effects of a switch request: the configs
written to disk by `state.saveConfig`, the number of `switchWatcher`
invocations (watcher rebuilds), and the `notifyClients` broadcasts as
(event type, resume payload) pairs. -/
structure SwitchEffects where
  savedConfigs : List ServerConfig
  watcherRebuilds : Nat
  broadcasts : List (String × String)
deriving Repr, DecidableEq

/-- HTTP response of `/api/switch/:name`: 200 with the new current name,
or 404 with an error body. -/
inductive SwitchResponse where
  | ok (current : String)
  | notFound
deriving Repr, DecidableEq

/-- Embedding of `handleSwitchResume(res, newResume)` given the known
document set `resumes` and the server state `s`. -/
def handleSwitchResume (resumes : List String) (s : ServerState)
    (newResume : String) : SwitchResponse × ServerState × SwitchEffects :=
  if resumes.contains newResume then
    let s1 : ServerState := { s with currentResume := some newResume }
    let cfg : ServerConfig := { s1.config with lastResume := some newResume }
    let s2 : ServerState := { s1 with config := cfg }
    (.ok newResume, s2,
      { savedConfigs := [cfg], watcherRebuilds := 1,
        broadcasts := [("switch", newResume)] })
  else
    (.notFound, s, { savedConfigs := [], watcherRebuilds := 0, broadcasts := [] })

/-- C5: switching to a name outside the known document set returns the
not-found response and has no side effects: the state (active document
context and config) is unchanged, no config is persisted, the watcher
is not rebuilt and nothing is broadcast. -/
theorem handleSwitchResume_unknown (resumes : List String) (s : ServerState)
    (newResume : String) (h : newResume ∉ resumes) :
    handleSwitchResume resumes s newResume =
      (.notFound, s, ⟨[], 0, []⟩) := by
  simp only [handleSwitchResume]
  rw [if_neg]
  simpa using h

/-- Witness for C5 at a concrete state and unknown name. -/
theorem handleSwitchResume_unknown_witness :
    handleSwitchResume ["john", "templates/modern"]
        ⟨some "john", ⟨none, none, []⟩⟩ "ghost" =
      (.notFound, ⟨some "john", ⟨none, none, []⟩⟩, ⟨[], 0, []⟩) :=
  handleSwitchResume_unknown ["john", "templates/modern"]
    ⟨some "john", ⟨none, none, []⟩⟩ "ghost" (by decide)

/-- C6: switching to a known name answers 200 with the new current
name, sets the active document context to it, persists exactly one
config whose `lastResume` is the new name, rebuilds the watcher exactly
once and broadcasts exactly one `switch` event. -/
theorem handleSwitchResume_known (resumes : List String) (s : ServerState)
    (newResume : String) (h : newResume ∈ resumes) :
    handleSwitchResume resumes s newResume =
      (.ok newResume,
       ⟨some newResume, { s.config with lastResume := some newResume }⟩,
       ⟨[{ s.config with lastResume := some newResume }], 1,
        [("switch", newResume)]⟩) := by
  simp only [handleSwitchResume]
  rw [if_pos]
  simpa using h

/-- Witness for C6 at a concrete state and known name. -/
theorem handleSwitchResume_known_witness :
    handleSwitchResume ["john", "templates/modern"]
        ⟨some "john", ⟨none, some "john", []⟩⟩ "templates/modern" =
      (.ok "templates/modern",
       ⟨some "templates/modern", ⟨none, some "templates/modern", []⟩⟩,
       ⟨[⟨none, some "templates/modern", []⟩], 1,
        [("switch", "templates/modern")]⟩) :=
  handleSwitchResume_known ["john", "templates/modern"]
    ⟨some "john", ⟨none, some "john", []⟩⟩ "templates/modern" (by decide)

/-! ### Launcher restart loop (src/launcher/index.js, main)

`main` loops: spawn the server, await its exit code; code 3 loops back,
code 2 clears `shouldCleanup` and breaks, any other code breaks with
`shouldCleanup` still true; after the loop, `cleanup(...)` runs iff
`shouldCleanup`.  We model a run by the list of exit codes of the
successive child processes and record the sequence of spawn and cleanup
actions. -/

inductive LaunchAction where
  | spawnServer
  | cleanupRun
deriving Repr, DecidableEq

/-- The `while (true)` loop of `main`: returns the actions performed in
the loop and the terminal exit code (none if the supplied code list is
exhausted by restarts). -/
def mainLoop : List Int → List LaunchAction × Option Int
  | [] => ([], none)
  | c :: rest =>
    if c = 3 then
      let p := mainLoop rest
      (.spawnServer :: p.1, p.2)
    else ([.spawnServer], some c)

/-- The whole launcher run: the loop, then `cleanup` iff
`shouldCleanup`, which only a code-2 exit clears. -/
def launcherRun (codes : List Int) : List LaunchAction :=
  let p := mainLoop codes
  match p.2 with
  | some c => if c = 2 then p.1 else p.1 ++ [.cleanupRun]
  | none => p.1

/-- The launcher's SIGINT/SIGTERM handlers: cleanup iff the
`shouldCleanup` flag is still set. -/
def sigHandler (shouldCleanupFlag : Bool) : List LaunchAction :=
  if shouldCleanupFlag then [.cleanupRun] else []

theorem mainLoop_all_spawn (codes : List Int) :
    ∀ a ∈ (mainLoop codes).1, a = LaunchAction.spawnServer := by
  induction codes with
  | nil => simp [mainLoop]
  | cons c rest ih =>
    intro a ha
    by_cases hc : c = 3
    · simp only [mainLoop, hc, if_true, List.mem_cons] at ha
      rcases ha with h | h
      · exact h
      · exact ih a h
    · simp only [mainLoop, hc, if_false, List.mem_singleton] at ha
      exact ha

theorem mainLoop_cons_shape (c : Int) (rest : List Int) :
    ∃ l, (mainLoop (c :: rest)).1 = LaunchAction.spawnServer :: l := by
  by_cases hc : c = 3
  · exact ⟨(mainLoop rest).1, by simp [mainLoop, hc]⟩
  · exact ⟨[], by simp [mainLoop, hc]⟩

/-- Counterexample to C7 as stated: a terminal child exit code of 1
(neither 0, nor 2, nor an interrupt) also reaches cleanup, so cleanup is
not reached only for exit code 0 or an external interrupt. -/
theorem launcher_cleanup_code1_counterexample :
    LaunchAction.cleanupRun ∈ launcherRun [1] ∧ (mainLoop [1]).2 = some 1 := by
  decide

/-- C7 (amended): child exit code 3 causes exactly one re-spawn with no
cleanup invoked in between (the loop itself performs only spawns); exit
code 0 causes cleanup to run exactly once before the supervisor exits;
and cleanup is reached for every terminal exit code other than 2
(including 0 and 1) and never for exit code 2, while the signal
handlers run it exactly when the `shouldCleanup` flag is still set. -/
theorem launcher_loop_amended :
    (∀ rest : List Int, launcherRun (3 :: rest) =
        LaunchAction.spawnServer :: launcherRun rest ∧
      (rest ≠ [] → (launcherRun rest).head? = some LaunchAction.spawnServer)) ∧
    launcherRun [0] = [LaunchAction.spawnServer, LaunchAction.cleanupRun] ∧
    (∀ codes : List Int, LaunchAction.cleanupRun ∉ (mainLoop codes).1) ∧
    (∀ codes : List Int,
      (LaunchAction.cleanupRun ∈ launcherRun codes ↔
        ∃ c, (mainLoop codes).2 = some c ∧ c ≠ 2) ∧
      (launcherRun codes).count LaunchAction.cleanupRun ≤ 1) ∧
    (∀ b : Bool, LaunchAction.cleanupRun ∈ sigHandler b ↔ b = true) := by
  have hnotin : ∀ codes : List Int, LaunchAction.cleanupRun ∉ (mainLoop codes).1 := by
    intro codes hmem
    exact absurd (mainLoop_all_spawn codes _ hmem) (by simp)
  refine ⟨?_, by decide, hnotin, ?_, ?_⟩
  · intro rest
    constructor
    · cases hq : (mainLoop rest).2 with
      | none => simp [launcherRun, mainLoop, hq]
      | some c =>
        by_cases hc : c = 2
        · simp [launcherRun, mainLoop, hq, hc]
        · simp [launcherRun, mainLoop, hq, hc]
    · intro hne
      cases rest with
      | nil => exact absurd rfl hne
      | cons c rest' =>
        obtain ⟨l, hl⟩ := mainLoop_cons_shape c rest'
        cases hq : (mainLoop (c :: rest')).2 with
        | none => simp [launcherRun, hq, hl]
        | some c' =>
          by_cases hc' : c' = 2
          · simp [launcherRun, hq, hc', hl]
          · simp [launcherRun, hq, hc', hl]
  · intro codes
    constructor
    · cases hq : (mainLoop codes).2 with
      | none =>
        simp only [launcherRun, hq]
        constructor
        · intro hmem; exact absurd hmem (hnotin codes)
        · rintro ⟨c, hc, -⟩; cases hc
      | some c =>
        by_cases hc : c = 2
        · subst hc
          simp only [launcherRun, hq, if_true]
          constructor
          · intro hmem; exact absurd hmem (hnotin codes)
          · rintro ⟨c', hc', hne⟩
            exact absurd (Option.some_injective _ hc').symm hne
        · simp only [launcherRun, hq, hc, if_false]
          constructor
          · intro _; exact ⟨c, rfl, hc⟩
          · intro _; simp
    · cases hq : (mainLoop codes).2 with
      | none =>
        simp only [launcherRun, hq]
        rw [List.count_eq_zero.mpr (hnotin codes)]
        exact Nat.zero_le 1
      | some c =>
        by_cases hc : c = 2
        · simp only [launcherRun, hq, hc, if_true]
          rw [List.count_eq_zero.mpr (hnotin codes)]
          exact Nat.zero_le 1
        · simp only [launcherRun, hq, hc, if_false]
          rw [List.count_append, List.count_eq_zero.mpr (hnotin codes)]
          simp
  · intro b; cases b <;> simp [sigHandler]

/-- Witness for C7 (amended): a restart (code 3) followed by a clean
stop (code 0) spawns twice, back to back, and then cleans up once. -/
theorem launcher_loop_amended_witness :
    launcherRun [3, 0] = LaunchAction.spawnServer :: launcherRun [0] ∧
    (launcherRun [0]).head? = some LaunchAction.spawnServer :=
  ⟨(launcher_loop_amended.1 [0]).1,
   (launcher_loop_amended.1 [0]).2 (by decide)⟩

/-! ### Broadcast (live-reload.js, notifyClients)

`notifyClients` iterates the client `Set`, tries `client.write(message)`
on each, and on a throw deletes that client from the set.  Deleting the
element currently visited during a JavaScript `Set.forEach` does not
change which elements get visited, so we model the loop with an
explicit to-visit list alongside the registry.  Clients are
identifiers; `broken c = true` means `c.write` throws. -/

/-- The `forEach` loop: `toVisit` are the clients not yet visited,
`reg` the registry set, `delivered` the clients whose write
succeeded so far. -/
def notifyGo (broken : Nat → Bool) :
    List Nat → List Nat → List Nat → List Nat × List Nat
  | [], reg, delivered => (reg, delivered)
  | c :: rest, reg, delivered =>
    if broken c then notifyGo broken rest (reg.erase c) delivered
    else notifyGo broken rest reg (delivered ++ [c])

/-- Embedding of `notifyClients`: returns the registry after the
broadcast and the list of clients that received the event. -/
def notifyClients (clients : List Nat) (broken : Nat → Bool) : List Nat × List Nat :=
  notifyGo broken clients clients []

theorem notifyGo_spec (broken : Nat → Bool) :
    ∀ (toVisit pre delivered : List Nat), (pre ++ toVisit).Nodup →
      notifyGo broken toVisit (pre ++ toVisit) delivered =
        (pre ++ toVisit.filter (fun c => !broken c),
         delivered ++ toVisit.filter (fun c => !broken c)) := by
  intro toVisit
  induction toVisit with
  | nil => intro pre delivered _; simp [notifyGo]
  | cons c rest ih =>
    intro pre delivered hnd
    have hcpre : c ∉ pre := by
      intro hc
      have := List.disjoint_of_nodup_append hnd hc
      simp at this
    by_cases hb : broken c
    · have herase : (pre ++ c :: rest).erase c = pre ++ rest := by
        rw [List.erase_append_right _ hcpre, List.erase_cons_head]
      have hnd' : (pre ++ rest).Nodup := by
        have := List.Nodup.erase c hnd
        rwa [herase] at this
      simp only [notifyGo, hb, if_true, herase]
      rw [ih pre delivered hnd']
      simp [hb]
    · have hre : pre ++ c :: rest = (pre ++ [c]) ++ rest := by simp
      have hnd' : ((pre ++ [c]) ++ rest).Nodup := by rwa [← hre]
      simp only [notifyGo, hb, if_false]
      rw [hre, ih (pre ++ [c]) (delivered ++ [c]) hnd']
      simp [hb]

/-- C8: a broadcast is best-effort over the subscriber set: every
subscriber whose write does not throw receives the event, a subscriber
whose write throws is removed from the registry, and the resulting
registry and delivery list are exactly the non-throwing subscribers in
registration order. -/
theorem notifyClients_best_effort (clients : List Nat) (broken : Nat → Bool)
    (hnd : clients.Nodup) :
    (notifyClients clients broken).1 = clients.filter (fun c => !broken c) ∧
    (notifyClients clients broken).2 = clients.filter (fun c => !broken c) ∧
    (∀ c ∈ clients, broken c = false → c ∈ (notifyClients clients broken).2) ∧
    (∀ c ∈ clients, broken c = true → c ∉ (notifyClients clients broken).1) := by
  have h := notifyGo_spec broken clients [] [] (by simpa using hnd)
  simp only [List.nil_append] at h
  have h1 : (notifyClients clients broken).1 = clients.filter (fun c => !broken c) := by
    simp only [notifyClients, h]
  have h2 : (notifyClients clients broken).2 = clients.filter (fun c => !broken c) := by
    simp only [notifyClients, h]
  refine ⟨h1, h2, ?_, ?_⟩
  · intro c hc hb
    rw [h2]
    exact List.mem_filter.mpr ⟨hc, by simp [hb]⟩
  · intro c _ hb hmem
    rw [h1] at hmem
    have := (List.mem_filter.mp hmem).2
    simp [hb] at this

/-- Witness for C8: with subscribers 1, 2, 3 where writing to 2 throws,
the broadcast delivers to 1 and 3 and removes 2 from the registry. -/
theorem notifyClients_best_effort_witness :
    (notifyClients [1, 2, 3] (fun c => c == 2)).2 = [1, 3] ∧
    (notifyClients [1, 2, 3] (fun c => c == 2)).1 = [1, 3] :=
  ⟨((notifyClients_best_effort [1, 2, 3] (fun c => c == 2) (by decide)).2.1).trans
      (by decide),
   ((notifyClients_best_effort [1, 2, 3] (fun c => c == 2) (by decide)).1).trans
      (by decide)⟩

/-! ### Static file serving (handlers/static.js, isPathSafe and
serveStaticFile)

Absolute paths are modelled as lists of components.  `path.join`
concatenates and normalizes (`..` pops a component, `.` and empty
components vanish); `path.resolve` of an absolute path performs the
same normalization.  On normalized absolute paths the string test
`resolvedPath.startsWith(resolvedBase + path.sep) || resolvedPath ===
resolvedBase` is exactly the component-prefix test. -/

/-- Normalization performed by `path.join` / `path.resolve` on an
absolute path's components. -/
def resolveComps (parts : List String) : List String :=
  parts.foldl
    (fun acc p =>
      if p = ".." then acc.dropLast
      else if p = "." then acc
      else if p = "" then acc
      else acc ++ [p]) []

/-- `hasBase base q` holds iff `base` is a leading run of `q`'s
components: the component form of `startsWith(base + sep) || === base`
for normalized paths. -/
def hasBase : List String → List String → Bool
  | [], _ => true
  | _ :: _, [] => false
  | b :: bs, q :: qs => (b == q) && hasBase bs qs

/-- Embedding of `isPathSafe(fullPath, baseDir)`: both sides are
`path.resolve`d, then compared. -/
def isPathSafe (fullPath baseDir : List String) : Bool :=
  hasBase (resolveComps baseDir) (resolveComps fullPath)

inductive StaticResponse where
  | served (file : List String)
  | forbidden
  | notFound
deriving Repr, DecidableEq

/-- Embedding of `serveStaticFile(res, pathname, resumeDir)`: join the
request pathname onto the resume directory, reject with 403 when
`isPathSafe` fails, otherwise read and serve the file when it exists.
`isFile` is the filesystem; the second component lists every path read
by `fs.readFileSync`. -/
def serveStaticFile (isFile : List String → Bool)
    (pathname resumeDir : List String) : StaticResponse × List (List String) :=
  let fullPath := resolveComps (resumeDir ++ pathname)
  if !(isPathSafe fullPath resumeDir) then (.forbidden, [])
  else if isFile fullPath then (.served fullPath, [fullPath])
  else (.notFound, [])

/-- A normalized component: not `..`, `.` or empty. -/
def cleanComp (p : String) : Prop :=
  p ≠ ".." ∧ p ≠ "." ∧ p ≠ ""

theorem resolveComps_clean (parts : List String) :
    ∀ p ∈ resolveComps parts, cleanComp p := by
  suffices h : ∀ acc, (∀ p ∈ acc, cleanComp p) →
      ∀ p ∈ parts.foldl
        (fun acc p =>
          if p = ".." then acc.dropLast
          else if p = "." then acc
          else if p = "" then acc
          else acc ++ [p]) acc, cleanComp p by
    exact h [] (by simp)
  induction parts with
  | nil => intro acc hacc; simpa using hacc
  | cons q rest ih =>
    intro acc hacc
    simp only [List.foldl_cons]
    by_cases h2 : q = ".."
    · simp only [h2, if_true]
      exact ih acc.dropLast
        (fun p hp => hacc p ((List.dropLast_sublist acc).subset hp))
    · by_cases h3 : q = "."
      · simp only [h2, if_false, h3, if_true]
        exact ih acc hacc
      · by_cases h4 : q = ""
        · simp only [h2, if_false, h3, if_false, h4, if_true]
          exact ih acc hacc
        · simp only [h2, if_false, h3, if_false, h4, if_false]
          refine ih (acc ++ [q]) ?_
          intro p hp
          rcases List.mem_append.mp hp with hm | hm
          · exact hacc p hm
          · rw [List.mem_singleton.mp hm]
            exact ⟨h2, h3, h4⟩

theorem resolveComps_foldl_clean :
    ∀ (l acc : List String), (∀ p ∈ l, cleanComp p) →
      (l.foldl
        (fun acc p =>
          if p = ".." then acc.dropLast
          else if p = "." then acc
          else if p = "" then acc
          else acc ++ [p]) acc) = acc ++ l := by
  intro l
  induction l with
  | nil => intro acc _; simp
  | cons q rest ih =>
    intro acc hl
    obtain ⟨h2, h3, h4⟩ := hl q (List.mem_cons_self q rest)
    simp only [List.foldl_cons, h2, if_false, h3, if_false, h4, if_false]
    rw [ih (acc ++ [q]) (fun p hp => hl p (List.mem_cons_of_mem q hp))]
    simp

theorem resolveComps_of_clean (l : List String) (hl : ∀ p ∈ l, cleanComp p) :
    resolveComps l = l := by
  have h := resolveComps_foldl_clean l [] hl
  simpa [resolveComps] using h

theorem resolveComps_idem (l : List String) :
    resolveComps (resolveComps l) = resolveComps l :=
  resolveComps_of_clean (resolveComps l) (resolveComps_clean l)

theorem hasBase_iff (b : List String) :
    ∀ q, hasBase b q = true ↔ b <+: q := by
  induction b with
  | nil => intro q; simp [hasBase]
  | cons x bs ih =>
    intro q
    cases q with
    | nil =>
      simp only [hasBase, Bool.false_eq_true, false_iff]
      rintro ⟨t, ht⟩
      simp at ht
    | cons y qs =>
      simp only [hasBase, Bool.and_eq_true, beq_iff_eq]
      constructor
      · rintro ⟨hxy, hb⟩
        obtain ⟨t, ht⟩ := (ih qs).mp hb
        exact ⟨t, by rw [List.cons_append, ht, hxy]⟩
      · rintro ⟨t, ht⟩
        rw [List.cons_append] at ht
        injection ht with h1 h2
        exact ⟨h1, (ih qs).mpr ⟨t, h2⟩⟩

/-- C10: for every request pathname, the static file handler reads a
file only when the fully resolved path lies inside the (normalized)
active resume directory, and any pathname resolving outside it is
answered with 403 Forbidden with no file read at all. -/
theorem serveStaticFile_traversal_safe (isFile : List String → Bool)
    (pathname resumeDir : List String)
    (hbase : resolveComps resumeDir = resumeDir) :
    (∀ f ∈ (serveStaticFile isFile pathname resumeDir).2, resumeDir <+: f) ∧
    (¬ resumeDir <+: resolveComps (resumeDir ++ pathname) →
      serveStaticFile isFile pathname resumeDir = (.forbidden, [])) ∧
    ((serveStaticFile isFile pathname resumeDir).1 = .forbidden →
      (serveStaticFile isFile pathname resumeDir).2 = []) := by
  have hsafe : isPathSafe (resolveComps (resumeDir ++ pathname)) resumeDir =
      hasBase resumeDir (resolveComps (resumeDir ++ pathname)) := by
    rw [isPathSafe, hbase, resolveComps_idem]
  by_cases hb : hasBase resumeDir (resolveComps (resumeDir ++ pathname)) = true
  · have hpref : resumeDir <+: resolveComps (resumeDir ++ pathname) :=
      (hasBase_iff resumeDir _).mp hb
    refine ⟨?_, ?_, ?_⟩
    · intro f hf
      simp only [serveStaticFile, hsafe, hb, Bool.not_true, Bool.false_eq_true,
        if_false] at hf
      by_cases hex : isFile (resolveComps (resumeDir ++ pathname)) = true
      · simp only [hex, if_true, List.mem_singleton] at hf
        rw [hf]
        exact hpref
      · simp only [Bool.not_eq_true] at hex
        simp [hex] at hf
    · intro hout
      exact absurd hpref hout
    · intro hresp
      simp only [serveStaticFile, hsafe, hb, Bool.not_true, Bool.false_eq_true,
        if_false] at hresp ⊢
      by_cases hex : isFile (resolveComps (resumeDir ++ pathname)) = true
      · simp [hex] at hresp
      · simp only [Bool.not_eq_true] at hex
        simp [hex]
  · have hbf : hasBase resumeDir (resolveComps (resumeDir ++ pathname)) = false := by
      simpa using hb
    refine ⟨?_, ?_, ?_⟩
    · intro f hf
      simp [serveStaticFile, hsafe, hbf] at hf
    · intro _
      simp [serveStaticFile, hsafe, hbf]
    · intro _
      simp [serveStaticFile, hsafe, hbf]

/-- Witness for C10: requesting `../../etc/passwd` under
`/home/user/resumes/john` resolves outside the directory and yields
403 with no read. -/
theorem serveStaticFile_traversal_safe_witness :
    serveStaticFile (fun _ => true)
        ["..", "..", "etc", "passwd"] ["home", "user", "resumes", "john"] =
      (.forbidden, []) :=
  (serveStaticFile_traversal_safe (fun _ => true)
      ["..", "..", "etc", "passwd"] ["home", "user", "resumes", "john"]
      (by decide)).2.1
    (by decide)

end CVAC
